import Mathlib

/-!
# Verification of the Twitter video downloader core (`src/download.py`)

Shallow embedding of the download pipeline:
* an untyped JSON-like value type standing for Python dict/list/str/int data,
* Python exception kinds as an explicit error type,
* `_extract_video_variants`, `_extract_tweet_id`, `_get_bearer_token`,
  `download_video`, `_download_file` and `_download_video_variants` as pure
  Lean functions over that data, with network and filesystem effects made
  explicit (stream responses as data, the filesystem as a map from paths to
  optional byte lists).
-/

namespace TwitterDl

/-- Untyped JSON-like values, standing for the Python objects produced by
`response.json()`: `None`, ints, strings, lists and string-keyed dicts. -/
inductive JValue where
  | null
  | num (n : Int)
  | str (s : String)
  | arr (elems : List JValue)
  | obj (fields : List (String × JValue))

/-- Python exception kinds observable in `download.py`.  `requestException`
covers `requests.RequestException`; `osError` covers local file-I/O errors;
`valueError`/`twitterAPIError` carry the message the source constructs. -/
inductive PyErr where
  | keyError
  | indexError
  | typeError
  | attributeError
  | osError
  | requestException
  | valueError (msg : String)
  | twitterAPIError (msg : String)
deriving DecidableEq, Repr

/-- Python dict subscript `j[k]`: `KeyError` when the key is absent,
`TypeError` when the subscripted value is not a dict (string and int
subscripts by a string key raise `TypeError` in Python). -/
def jGet (j : JValue) (k : String) : Except PyErr JValue :=
  match j with
  | .obj fields =>
    match fields.lookup k with
    | some v => .ok v
    | none => .error .keyError
  | _ => .error .typeError

/-- Python list subscript `j[i]` for a non-negative literal index:
`IndexError` past the end of a list or string, `KeyError` on a dict
(JSON-derived dicts have string keys, so an int key is absent),
`TypeError` otherwise. -/
def jIndex (j : JValue) (i : Nat) : Except PyErr JValue :=
  match j with
  | .arr elems =>
    match elems.get? i with
    | some v => .ok v
    | none => .error .indexError
  | .obj _ => .error .keyError
  | .str s =>
    match s.toList.get? i with
    | some c => .ok (.str (String.mk [c]))
    | none => .error .indexError
  | _ => .error .typeError

/-- Python `j.get(k, d)`: never raises on a dict; on a non-dict the
attribute lookup itself raises `AttributeError`. -/
def jGetD (j : JValue) (k : String) (d : JValue) : Except PyErr JValue :=
  match j with
  | .obj fields =>
    match fields.lookup k with
    | some v => .ok v
    | none => .ok d
  | _ => .error .attributeError

/-- Python iteration `for v in j`: lists yield elements, dicts yield their
keys, strings yield one-character strings, other values raise `TypeError`. -/
def jIter (j : JValue) : Except PyErr (List JValue) :=
  match j with
  | .arr elems => .ok elems
  | .obj fields => .ok (fields.map fun p => .str p.1)
  | .str s => .ok (s.toList.map fun c => .str (String.mk [c]))
  | _ => .error .typeError

/-- Python equality `j == "s"` between an arbitrary value and a string
literal: true exactly when `j` is that string. -/
def jEqStr (j : JValue) (s : String) : Bool :=
  match j with
  | .str t => t = s
  | _ => false

/-- The `VideoVariant` dataclass.  Field values are whatever Python values
the untyped JSON navigation produced, so they stay `JValue`s. -/
structure VideoVariant where
  bitrate : JValue
  url : JValue
  content_type : JValue

/-- The navigation chain
`tweet_data["data"]["tweetResult"]["result"]["legacy"]["entities"]["media"][0]["video_info"]["variants"]`
from `_extract_video_variants`. -/
def resolve_variants (tweet_data : JValue) : Except PyErr JValue := do
  let d ← jGet tweet_data "data"
  let tr ← jGet d "tweetResult"
  let res ← jGet tr "result"
  let leg ← jGet res "legacy"
  let ents ← jGet leg "entities"
  let media ← jGet ents "media"
  let m0 ← jIndex media 0
  let vi ← jGet m0 "video_info"
  jGet vi "variants"

/-- One step of the list comprehension in `_extract_video_variants`:
evaluate the filter `variant["content_type"] == "video/mp4"` first; for a
kept entry build `VideoVariant(variant.get("bitrate", 0), variant["url"],
variant["content_type"])`.  Returns `none` for a filtered-out entry. -/
def build_variant (v : JValue) : Except PyErr (Option VideoVariant) := do
  let ct ← jGet v "content_type"
  if jEqStr ct "video/mp4" then
    let b ← jGetD v "bitrate" (.num 0)
    let u ← jGet v "url"
    pure (some ⟨b, u, ct⟩)
  else
    pure none

/-- The whole comprehension, left to right; the first raised exception
aborts it. -/
def extract_items : List JValue → Except PyErr (List VideoVariant)
  | [] => .ok []
  | v :: rest => do
    match ← build_variant v with
    | some vv => return vv :: (← extract_items rest)
    | none => extract_items rest

/-- `TwitterVideoDownloader._extract_video_variants`: navigate the nested
path, run the comprehension, and convert `KeyError`/`IndexError` (the
`except (KeyError, IndexError)` clause) into
`ValueError("Could not find video information in tweet data")`; every other
exception propagates unchanged. -/
def extract_video_variants (tweet_data : JValue) : Except PyErr (List VideoVariant) :=
  match (do extract_items (← jIter (← resolve_variants tweet_data))) with
  | .ok r => .ok r
  | .error .keyError => .error (.valueError "Could not find video information in tweet data")
  | .error .indexError => .error (.valueError "Could not find video information in tweet data")
  | .error e => .error e

/-- Two successive calls of the extractor on the same description.  The
third component records the description the second call received: the
source mutates nothing, so it is the argument itself. -/
def extract_twice (tweet_data : JValue) :
    Except PyErr (List VideoVariant) × Except PyErr (List VideoVariant) × JValue :=
  (extract_video_variants tweet_data, extract_video_variants tweet_data, tweet_data)

/-- Does this variants-list entry pass the comprehension's filter
(a dict whose `content_type` equals `"video/mp4"`)? -/
def isMp4Entry (e : JValue) : Bool :=
  match e with
  | .obj fields =>
    match fields.lookup "content_type" with
    | some ct => jEqStr ct "video/mp4"
    | none => false
  | _ => false

/-- Is this entry a dict that declares a `content_type` at all? -/
def hasContentType (e : JValue) : Bool :=
  match e with
  | .obj fields => (fields.lookup "content_type").isSome
  | _ => false

/-- Is this entry a dict that declares a `url`? -/
def hasUrl (e : JValue) : Bool :=
  match e with
  | .obj fields => (fields.lookup "url").isSome
  | _ => false

/-! ## Bearer-token scan: `re.findall(r'AAAAAAAAA[^"]+', text)[0]` -/

/-- The fixed literal lead of the bearer pattern: nine `A` characters. -/
def bearerLead : List Char :=
  ['A', 'A', 'A', 'A', 'A', 'A', 'A', 'A', 'A']

/-- Try the bearer regex anchored at the head of `cs`: the nine-`A` literal
followed by the greedy `[^"]+` (at least one character that is not a double
quote).  Returns the full match. -/
def matchBearerAt (cs : List Char) : Option (List Char) :=
  if bearerLead.isPrefixOf cs then
    let tok := (cs.drop 9).takeWhile fun c => c != '"'
    if tok.isEmpty then none else some (bearerLead ++ tok)
  else none

/-- Leftmost-match scan shared by both regex uses: Python's `re.findall`
tries the pattern at positions left to right, so its first element is the
match anchored at the least position where the pattern fits. -/
def scanFirst (m : List Char → Option (List Char)) : List Char → Option (List Char)
  | [] => none
  | c :: rest =>
    match m (c :: rest) with
    | some t => some t
    | none => scanFirst m rest

/-- Leftmost match of the bearer pattern. -/
def findFirstBearer (cs : List Char) : Option (List Char) :=
  scanFirst matchBearerAt cs

/-- `TwitterAPIClient._get_bearer_token`, given the outcome of the HTTP GET
of `main.js` (a transport error, or the body text with a success status):
a `requests.RequestException` is converted to `TwitterAPIError`; otherwise
the first regex match is returned, or `TwitterAPIError` when there is none. -/
def get_bearer_token (mainJs : Except PyErr String) : Except PyErr String :=
  match mainJs with
  | .error .requestException =>
    .error (.twitterAPIError "Failed to get bearer token")
  | .error e => .error e
  | .ok body =>
    match findFirstBearer body.toList with
    | some m => .ok (String.mk m)
    | none => .error (.twitterAPIError "Could not find bearer token in main.js")

/-! ## Tweet-id scan: `re.findall(r'(?<=status/)\d+', tweet_url)[0]` -/

/-- The literal look-behind text `status/`. -/
def statusMarker : List Char :=
  ['s', 't', 'a', 't', 'u', 's', '/']

/-- Try the tweet-id pattern with the look-behind anchored at the head of
`cs`: the literal `status/` followed by the greedy `\d+`. -/
def matchIdAt (cs : List Char) : Option (List Char) :=
  if statusMarker.isPrefixOf cs then
    let ds := (cs.drop 7).takeWhile Char.isDigit
    if ds.isEmpty then none else some ds
  else none

/-- Leftmost match of the tweet-id pattern. -/
def findFirstId (cs : List Char) : Option (List Char) :=
  scanFirst matchIdAt cs

/-- `TwitterVideoDownloader._extract_tweet_id`: first regex match, or
`ValueError(f"Could not parse tweet ID from URL: {tweet_url}")`. -/
def extract_tweet_id (tweet_url : String) : Except PyErr String :=
  match findFirstId tweet_url.toList with
  | some m => .ok (String.mk m)
  | none => .error (.valueError ("Could not parse tweet ID from URL: " ++ tweet_url))

/-! ## The orchestrator `download_video` -/

/-- The five stages `download_video` can perform, in source order. -/
inductive Stage where
  | authS
  | parseS
  | fetchS
  | extractS
  | downloadS
deriving DecidableEq, Repr

/-- Stubbed upstream environment for one `download_video` run: the outcome
of fetching `main.js`, of the guest-token activation call, of
`get_tweet_details` per tweet id, and of the download phase. -/
structure Env where
  mainJs : Except PyErr String
  guest : Except PyErr String
  tweetDetails : String → Except PyErr JValue
  dl : Except PyErr Unit

/-- `TwitterAPIClient.authenticate`: bearer token first, then guest token;
the first failure propagates. -/
def authenticate (env : Env) : Except PyErr (String × String) := do
  let b ← get_bearer_token env.mainJs
  let g ← env.guest
  pure (b, g)

/-- `TwitterVideoDownloader.download_video`, returning the list of stages
it performed together with its outcome.  The source order is: authenticate,
then `_extract_tweet_id`, then `get_tweet_details`, then
`_extract_video_variants`, then the emptiness check raising
`ValueError("No video found in tweet")`, then `_download_video_variants`.
The outer `except` clause logs and re-raises, so errors propagate
unchanged. -/
def download_video (env : Env) (tweet_url : String) :
    List Stage × Except PyErr Unit :=
  match authenticate env with
  | .error e => ([.authS], .error e)
  | .ok _ =>
    match extract_tweet_id tweet_url with
    | .error e => ([.authS, .parseS], .error e)
    | .ok tweet_id =>
      match env.tweetDetails tweet_id with
      | .error e => ([.authS, .parseS, .fetchS], .error e)
      | .ok tweet_data =>
        match extract_video_variants tweet_data with
        | .error e => ([.authS, .parseS, .fetchS, .extractS], .error e)
        | .ok video_variants =>
          if video_variants.isEmpty then
            ([.authS, .parseS, .fetchS, .extractS],
             .error (.valueError "No video found in tweet"))
          else
            ([.authS, .parseS, .fetchS, .extractS, .downloadS], env.dl)

/-! ## The stream downloader `_download_file` -/

/-- One event of the chunk stream `response.iter_content(8192)`:
either a delivered chunk of bytes together with whether the local
`f.write(chunk)` for it raises `OSError`, or a mid-stream
`requests.RequestException` raised by the iterator. -/
inductive ChunkEvent where
  | data (bytes : List Nat) (writeFails : Bool)
  | transportFail
deriving DecidableEq, Repr

/-- One streamed HTTP response as `_download_file` observes it:
whether `requests.get` itself succeeds, whether `raise_for_status` passes,
the parsed `content-length` header (`0` for absent), the whole body for the
unknown-length path together with whether writing it fails, and the chunk
events for the known-length path. -/
structure StreamResponse where
  getOk : Bool
  statusOk : Bool
  contentLength : Nat
  content : List Nat
  contentWriteFails : Bool
  events : List ChunkEvent
deriving DecidableEq, Repr

/-- The filesystem: contents (a byte list) per path, `none` when no file
exists at the path. -/
def FS : Type := String → Option (List Nat)

/-- Write or truncate the file at `p`. -/
def fsSet (fs : FS) (p : String) (v : Option (List Nat)) : FS :=
  fun q => if q = p then v else fs q

/-- Source line `if output_path.exists(): output_path.unlink()`. -/
def fsUnlinkIfExists (fs : FS) (p : String) : FS :=
  if (fs p).isSome then fsSet fs p none else fs

/-- The chunk loop of `_download_file` for a known nonzero length: returns
the bytes written so far, the emitted progress percentages in order, and
the outcome.  An empty chunk is skipped by `if chunk:`.  After a written
chunk the source computes `percentage = int(downloaded / total_size * 100)`
— embedded as the exact `downloaded * 100 / total` the spec's formula
states — and logs exactly when `percentage % 10 == 0`. -/
def dlLoop (total : Nat) : List ChunkEvent → Nat → List Nat × List Nat × Except PyErr Unit
  | [], _ => ([], [], .ok ())
  | .transportFail :: _, _ => ([], [], .error .requestException)
  | .data bytes writeFails :: rest, downloaded =>
    if bytes.isEmpty then dlLoop total rest downloaded
    else if writeFails then ([], [], .error .osError)
    else
      let downloaded' := downloaded + bytes.length
      let percentage := downloaded' * 100 / total
      let r := dlLoop total rest downloaded'
      (bytes ++ r.1, (if percentage % 10 = 0 then [percentage] else []) ++ r.2.1, r.2.2)

/-- `TwitterVideoDownloader._download_file` acting on the filesystem at
`output_path`.  `requests.get` or `raise_for_status` failures hit the
`except requests.RequestException` clause before the file is opened;
`open(output_path, 'wb')` truncates the destination; a mid-stream
`RequestException` is caught by the same clause, which unlinks the
(existing) destination and re-raises; an `OSError` from a write is not
caught, so it propagates with the partial file left in place.  Returns the
new filesystem, the progress log and the outcome. -/
def download_file (r : StreamResponse) (output_path : String) (fs : FS) :
    FS × List Nat × Except PyErr Unit :=
  if !r.getOk then
    (fsUnlinkIfExists fs output_path, [], .error .requestException)
  else if !r.statusOk then
    (fsUnlinkIfExists fs output_path, [], .error .requestException)
  else if r.contentLength = 0 then
    if r.contentWriteFails then
      (fsSet fs output_path (some []), [], .error .osError)
    else
      (fsSet fs output_path (some r.content), [], .ok ())
  else
    let run := dlLoop r.contentLength r.events 0
    match run.2.2 with
    | .ok () => (fsSet fs output_path (some run.1), run.2.1, .ok ())
    | .error .requestException =>
      (fsUnlinkIfExists (fsSet fs output_path (some run.1)) output_path,
       run.2.1, .error .requestException)
    | .error e => (fsSet fs output_path (some run.1), run.2.1, .error e)

/-! ## The per-variant loop `_download_video_variants` -/

/-- Python `str()` as the f-string in `_download_video_variants` applies it
to `variant.bitrate`.  The claims only exercise scalar bitrates; compound
values get a fixed placeholder. -/
def pyStr : JValue → String
  | .null => "None"
  | .num n => toString n
  | .str s => s
  | .arr _ => "[...]"
  | .obj _ => "..."

/-- The destination name `f"tweet_{tweet_id}_{variant.bitrate}.mp4"`. -/
def variant_filename (tweet_id : String) (v : VideoVariant) : String :=
  "tweet_" ++ tweet_id ++ "_" ++ pyStr v.bitrate ++ ".mp4"

/-- `TwitterVideoDownloader._download_video_variants`: download each
variant in order into its destination file; the first failure propagates
and aborts the remaining variants.  `responses k` is the streamed response
the `k`-th `requests.get` call of this loop receives (counted from the
given start index, so the recursion can be stated uniformly). -/
def download_video_variants (responses : Nat → StreamResponse)
    (tweet_id : String) : List VideoVariant → Nat → FS → FS × Except PyErr Unit
  | [], _, fs => (fs, .ok ())
  | v :: rest, k, fs =>
    let output_path := variant_filename tweet_id v
    let run := download_file (responses k) output_path fs
    match run.2.2 with
    | .ok () => download_video_variants responses tweet_id rest (k + 1) run.1
    | .error e => (run.1, .error e)

/-! ## Spec-side definitions

These follow the spec's words independently of the source, for comparison
with the embedded code. -/

/-- Following the spec's words: after each chunk of the given size,
compute `floor(bytesSoFar / total * 100)` and emit it exactly when it is a
multiple of 10. -/
def progressSpec (total : Nat) : Nat → List Nat → List Nat
  | _, [] => []
  | sofar, n :: rest =>
    let sofar' := sofar + n
    let pct := sofar' * 100 / total
    if pct % 10 = 0 then pct :: progressSpec total sofar' rest
    else progressSpec total sofar' rest

/-- Spec-side bearer match: at the head of `cs` there is a token `t`
consisting of the fixed nine-`A` lead followed by a nonempty run of
non-quote characters, maximal (the text continues with a quote or ends). -/
def IsBearerMatch (cs t : List Char) : Prop :=
  ∃ tok rest, t = bearerLead ++ tok ∧ tok ≠ [] ∧ (∀ c ∈ tok, c ≠ '"') ∧
    cs = t ++ rest ∧ (∀ c, rest.head? = some c → c = '"')

/-- Spec-side tweet-id match: at the head of `cs` the literal `status/` is
immediately followed by the nonempty digit run `ds`, maximal. -/
def IsIdMatch (cs ds : List Char) : Prop :=
  ∃ rest, ds ≠ [] ∧ (∀ c ∈ ds, c.isDigit) ∧
    cs = statusMarker ++ ds ++ rest ∧ (∀ c, rest.head? = some c → c.isDigit = false)

/-- The bytes one stream event delivers. -/
def evBytes : ChunkEvent → List Nat
  | .data bytes _ => bytes
  | .transportFail => []

/-- A stream event a successful run may contain: a delivered chunk whose
write does not fail.  An empty chunk is always fine — `if chunk:` skips it,
so its write never happens. -/
def evOk : ChunkEvent → Bool
  | .data bytes writeFails => bytes.isEmpty || !writeFails
  | .transportFail => false

/-- A streamed response on which `_download_file` succeeds: transport and
status fine, and every chunk event delivered and written without error. -/
def streamOk (r : StreamResponse) : Bool :=
  r.getOk && r.statusOk &&
    (if r.contentLength = 0 then !r.contentWriteFails
     else r.events.all evOk)

/-- The bytes a successful `_download_file` run leaves at the destination:
the whole body for unknown length, otherwise the delivered chunks
concatenated. -/
def successContent (r : StreamResponse) : List Nat :=
  if r.contentLength = 0 then r.content
  else (r.events.map evBytes).flatten

/-! ## Helper lemmas about scanning -/

lemma head_dropWhile_not {p : Char → Bool} :
    ∀ (l : List Char) (c : Char), (l.dropWhile p).head? = some c → p c = false := by
  intro l
  induction l with
  | nil => intro c h; simp [List.dropWhile] at h
  | cons a l ih =>
    intro c h
    rw [List.dropWhile_cons] at h
    split at h
    · exact ih c h
    · next hpa =>
      simp only [List.head?_cons, Option.some.injEq] at h
      subst h
      exact Bool.not_eq_true _ ▸ Bool.of_not_eq_true hpa

lemma takeWhile_append_all {p : Char → Bool} :
    ∀ (tok rest : List Char), (∀ c ∈ tok, p c = true) →
      (∀ c, rest.head? = some c → p c = false) →
      (tok ++ rest).takeWhile p = tok := by
  intro tok
  induction tok with
  | nil =>
    intro rest _ hr
    cases rest with
    | nil => rfl
    | cons a l =>
      have ha := hr a rfl
      simp [List.takeWhile_cons, ha]
  | cons a tok ih =>
    intro rest ht hr
    have ha : p a = true := ht a (List.mem_cons_self a tok)
    simp only [List.cons_append, List.takeWhile_cons, ha, if_true]
    rw [ih rest (fun c hc => ht c (List.mem_cons_of_mem a hc)) hr]

lemma scanFirst_eq_none_iff (m : List Char → Option (List Char)) (hm : m [] = none)
    (cs : List Char) :
    scanFirst m cs = none ↔ ∀ i, m (cs.drop i) = none := by
  induction cs with
  | nil => simp [scanFirst, hm]
  | cons c rest ih =>
    constructor
    · intro h i
      unfold scanFirst at h
      cases hmc : m (c :: rest) with
      | some t => rw [hmc] at h; cases h
      | none =>
        rw [hmc] at h
        cases i with
        | zero => simpa using hmc
        | succ i => simpa using (ih.mp h) i
    · intro h
      unfold scanFirst
      have h0 : m (c :: rest) = none := by simpa using h 0
      rw [h0]
      exact ih.mpr fun i => by simpa using h (i + 1)

lemma scanFirst_eq_some_iff (m : List Char → Option (List Char)) (hm : m [] = none)
    (cs t : List Char) :
    scanFirst m cs = some t ↔
      ∃ i, m (cs.drop i) = some t ∧ ∀ j, j < i → m (cs.drop j) = none := by
  induction cs with
  | nil =>
    simp only [scanFirst, List.drop_nil, hm]
    constructor
    · intro h; cases h
    · rintro ⟨i, h1, -⟩; cases h1
  | cons c rest ih =>
    constructor
    · intro h
      unfold scanFirst at h
      cases hmc : m (c :: rest) with
      | some t' =>
        rw [hmc] at h
        injection h with h
        subst h
        exact ⟨0, hmc, fun j hj => absurd hj (Nat.not_lt_zero j)⟩
      | none =>
        rw [hmc] at h
        obtain ⟨i, h1, h2⟩ := ih.mp h
        refine ⟨i + 1, by simpa using h1, fun j hj => ?_⟩
        cases j with
        | zero => simpa using hmc
        | succ j => simpa using h2 j (Nat.lt_of_succ_lt_succ hj)
    · rintro ⟨i, h1, h2⟩
      unfold scanFirst
      cases i with
      | zero =>
        rw [List.drop_zero] at h1
        rw [h1]
      | succ i =>
        have h0 : m (c :: rest) = none := by simpa using h2 0 (Nat.succ_pos i)
        rw [h0]
        exact ih.mpr ⟨i, by simpa using h1,
          fun j hj => by simpa using h2 (j + 1) (Nat.succ_lt_succ hj)⟩

lemma matchBearerAt_some_iff (cs t : List Char) :
    matchBearerAt cs = some t ↔ IsBearerMatch cs t := by
  constructor
  · intro h
    unfold matchBearerAt at h
    split at h
    · next hpre =>
      by_cases hne : ((cs.drop 9).takeWhile fun c => c != '"').isEmpty
      · rw [if_pos hne] at h; cases h
      · rw [if_neg hne] at h
        injection h with h
        refine ⟨(cs.drop 9).takeWhile fun c => c != '"',
          (cs.drop 9).dropWhile fun c => c != '"', h.symm, ?_, ?_, ?_, ?_⟩
        · intro hnil; rw [hnil] at hne; exact hne rfl
        · intro c hc
          have hb := List.mem_takeWhile_imp hc
          simpa using hb
        · have hp : bearerLead <+: cs := List.isPrefixOf_iff_prefix.mp hpre
          have htake : bearerLead = cs.take 9 := List.prefix_iff_eq_take.mp hp
          conv_lhs => rw [← List.take_append_drop 9 cs]
          rw [← h, ← htake, List.append_assoc,
            List.takeWhile_append_dropWhile (fun c => c != '"') (cs.drop 9)]
        · intro c hc
          have hfalse := head_dropWhile_not _ c hc
          simpa using hfalse
    · cases h
  · rintro ⟨tok, rest, ht, hne, htok, hcs, hrest⟩
    subst ht
    subst hcs
    unfold matchBearerAt
    have hpre : bearerLead.isPrefixOf ((bearerLead ++ tok) ++ rest) = true := by
      rw [List.isPrefixOf_iff_prefix, List.append_assoc]
      exact List.prefix_append bearerLead (tok ++ rest)
    rw [if_pos hpre]
    have hdrop : ((bearerLead ++ tok) ++ rest).drop 9 = tok ++ rest := by
      rw [List.append_assoc]
      exact List.drop_left' rfl
    rw [hdrop, takeWhile_append_all tok rest
      (fun c hc => bne_iff_ne.mpr (htok c hc))
      (fun c hc => by simpa using hrest c hc)]
    rw [if_neg (by simpa [List.isEmpty_iff] using hne)]

lemma matchIdAt_some_iff (cs ds : List Char) :
    matchIdAt cs = some ds ↔ IsIdMatch cs ds := by
  constructor
  · intro h
    unfold matchIdAt at h
    split at h
    · next hpre =>
      by_cases hne : ((cs.drop 7).takeWhile Char.isDigit).isEmpty
      · rw [if_pos hne] at h; cases h
      · rw [if_neg hne] at h
        injection h with h
        refine ⟨(cs.drop 7).dropWhile Char.isDigit, ?_, ?_, ?_, ?_⟩
        · intro hnil
          exact hne (by rw [h, hnil]; rfl)
        · intro c hc; rw [← h] at hc; exact List.mem_takeWhile_imp hc
        · have hp : statusMarker <+: cs := List.isPrefixOf_iff_prefix.mp hpre
          have htake : statusMarker = cs.take 7 := List.prefix_iff_eq_take.mp hp
          conv_lhs => rw [← List.take_append_drop 7 cs]
          rw [← htake, ← h, List.append_assoc,
            List.takeWhile_append_dropWhile Char.isDigit (cs.drop 7)]
        · intro c hc
          exact head_dropWhile_not _ c hc
    · cases h
  · rintro ⟨rest, hne, hds, hcs, hrest⟩
    subst hcs
    unfold matchIdAt
    have hpre : statusMarker.isPrefixOf (statusMarker ++ ds ++ rest) = true := by
      rw [List.isPrefixOf_iff_prefix, List.append_assoc]
      exact List.prefix_append statusMarker (ds ++ rest)
    rw [if_pos hpre]
    have hdrop : (statusMarker ++ ds ++ rest).drop 7 = ds ++ rest := by
      rw [List.append_assoc]
      exact List.drop_left' rfl
    rw [hdrop, takeWhile_append_all ds rest hds hrest]
    rw [if_neg (by simpa [List.isEmpty_iff] using hne)]

/-! ## Claim theorems: bearer and tweet-id extraction -/

lemma get_bearer_token_ok_eq (body : String) :
    get_bearer_token (.ok body) =
      match findFirstBearer body.toList with
      | some m => .ok (String.mk m)
      | none => .error (.twitterAPIError "Could not find bearer token in main.js") :=
  rfl

/-- C6: for every client-script body containing at least one token matching
the bearer pattern, extraction returns the match at the least position in
document order; for a body with zero matches it fails with the credential
error. -/
theorem bearer_extraction_first_match (body : String) :
    (∀ t, get_bearer_token (.ok body) = .ok t →
        ∃ i, IsBearerMatch (body.toList.drop i) t.toList ∧
          ∀ j t', IsBearerMatch (body.toList.drop j) t' → i ≤ j) ∧
    (get_bearer_token (.ok body) =
        .error (.twitterAPIError "Could not find bearer token in main.js") ↔
      ∀ i t, ¬ IsBearerMatch (body.toList.drop i) t) := by
  have hmnil : matchBearerAt [] = none := rfl
  constructor
  · intro t h
    rw [get_bearer_token_ok_eq] at h
    cases hf : findFirstBearer body.toList with
    | none => rw [hf] at h; cases h
    | some m =>
      rw [hf] at h
      injection h with h
      obtain ⟨i, h1, h2⟩ :=
        (scanFirst_eq_some_iff matchBearerAt hmnil body.toList m).mp hf
      subst h
      refine ⟨i, (matchBearerAt_some_iff _ m).mp h1, ?_⟩
      intro j t' hj
      by_contra hlt
      have hjm : matchBearerAt (body.toList.drop j) = some t' :=
        (matchBearerAt_some_iff _ t').mpr hj
      rw [h2 j (Nat.lt_of_not_le hlt)] at hjm
      cases hjm
  · constructor
    · intro h i t hmatch
      rw [get_bearer_token_ok_eq] at h
      cases hf : findFirstBearer body.toList with
      | some m => rw [hf] at h; cases h
      | none =>
        have hall := (scanFirst_eq_none_iff matchBearerAt hmnil body.toList).mp hf
        have := (matchBearerAt_some_iff _ t).mpr hmatch
        rw [hall i] at this
        cases this
    · intro h
      rw [get_bearer_token_ok_eq]
      cases hf : findFirstBearer body.toList with
      | some m =>
        obtain ⟨i, h1, -⟩ :=
          (scanFirst_eq_some_iff matchBearerAt hmnil body.toList m).mp hf
        exact absurd ((matchBearerAt_some_iff _ m).mp h1) (h i m)
      | none => rfl

/-- C6 witness: on a concrete script body with a bearer token, extraction
returns the first match, at a position below every match position. -/
theorem bearer_extraction_first_match_witness :
    ∃ i, IsBearerMatch (("-AAAAAAAAAq7\"t" : String).toList.drop i)
        ("AAAAAAAAAq7" : String).toList ∧
      ∀ j t', IsBearerMatch (("-AAAAAAAAAq7\"t" : String).toList.drop j) t' → i ≤ j :=
  (bearer_extraction_first_match "-AAAAAAAAAq7\"t").1 "AAAAAAAAAq7" rfl

/-- C7: for every post URL containing `status/` immediately followed by a
digit run, identifier extraction returns the (maximal) digit run at the
least such position exactly; for a URL without the pattern it fails with
the input error carrying the URL. -/
theorem tweet_id_extraction_spec (url : String) :
    (∀ t, extract_tweet_id url = .ok t →
        ∃ i, IsIdMatch (url.toList.drop i) t.toList ∧
          ∀ j ds, IsIdMatch (url.toList.drop j) ds → i ≤ j) ∧
    (extract_tweet_id url =
        .error (.valueError ("Could not parse tweet ID from URL: " ++ url)) ↔
      ∀ i ds, ¬ IsIdMatch (url.toList.drop i) ds) := by
  have hmnil : matchIdAt [] = none := rfl
  constructor
  · intro t h
    unfold extract_tweet_id at h
    cases hf : findFirstId url.toList with
    | none => rw [hf] at h; cases h
    | some m =>
      rw [hf] at h
      injection h with h
      obtain ⟨i, h1, h2⟩ := (scanFirst_eq_some_iff matchIdAt hmnil url.toList m).mp hf
      subst h
      refine ⟨i, (matchIdAt_some_iff _ m).mp h1, ?_⟩
      intro j ds hj
      by_contra hlt
      have hjm : matchIdAt (url.toList.drop j) = some ds :=
        (matchIdAt_some_iff _ ds).mpr hj
      rw [h2 j (Nat.lt_of_not_le hlt)] at hjm
      cases hjm
  · constructor
    · intro h i ds hmatch
      unfold extract_tweet_id at h
      cases hf : findFirstId url.toList with
      | some m => rw [hf] at h; cases h
      | none =>
        have hall := (scanFirst_eq_none_iff matchIdAt hmnil url.toList).mp hf
        have := (matchIdAt_some_iff _ ds).mpr hmatch
        rw [hall i] at this
        cases this
    · intro h
      unfold extract_tweet_id
      cases hf : findFirstId url.toList with
      | some m =>
        obtain ⟨i, h1, -⟩ := (scanFirst_eq_some_iff matchIdAt hmnil url.toList m).mp hf
        exact absurd ((matchIdAt_some_iff _ m).mp h1) (h i m)
      | none => rfl

/-- C7 witness: a concrete URL with `status/123456` yields `123456` as the
first (and here only) match, and a concrete URL without the pattern yields
the input error. -/
theorem tweet_id_extraction_spec_witness :
    (∃ i, IsIdMatch (("https://x.com/u/status/123456?s=1" : String).toList.drop i)
        ("123456" : String).toList ∧
      ∀ j ds, IsIdMatch (("https://x.com/u/status/123456?s=1" : String).toList.drop j) ds →
        i ≤ j) ∧
    extract_tweet_id "https://x.com/a/b" =
      .error (.valueError "Could not parse tweet ID from URL: https://x.com/a/b") :=
  ⟨(tweet_id_extraction_spec "https://x.com/u/status/123456?s=1").1 "123456" rfl,
   rfl⟩

/-! ## Claim theorems: progress reporting (concrete run) and extractor purity -/

/-- A streamed response declaring 1000 bytes, delivered as ten 100-byte
chunks with no failures. -/
def respThousand : StreamResponse :=
  ⟨true, true, 1000, [], false, List.replicate 10 (.data (List.replicate 100 0) false)⟩

/-- C8: with a declared content length of 1000 bytes delivered in ten
100-byte chunks, `_download_file` logs exactly the progress values
10, 20, ..., 100, one per chunk, in that order. -/
theorem progress_thousand_hundred_chunks :
    (download_file respThousand "tweet_1_0.mp4" (fun _ => none)).2.1 =
      [10, 20, 30, 40, 50, 60, 70, 80, 90, 100] := by
  rfl

/-- C9: the extractor is deterministic and leaves the description
unmodified: two successive calls on the same `MediaDescription` give the
same result, and the description the second call receives is the original
one. -/
theorem extract_variants_deterministic_pure (tweet_data : JValue) :
    (extract_twice tweet_data).1 = (extract_twice tweet_data).2.1 ∧
      (extract_twice tweet_data).2.2 = tweet_data :=
  ⟨rfl, rfl⟩

/-! ## Claim theorems: orchestrator stage order -/

/-- An environment whose authentication succeeds (the fetched script body
contains a bearer token) and which is never asked for tweet details. -/
def envNoPattern : Env :=
  { mainJs := .ok "x\"AAAAAAAAAtok\"x"
    guest := .ok "g"
    tweetDetails := fun _ => .error .requestException
    dl := .ok () }

/-- C2 counterexample: for the pattern-less URL `https://x.com/a/b`,
`download_video` fails with the input error, but the authentication stage
HAS been performed (it appears in the trace, before parsing), contradicting
the claim that no authentication step happens for such URLs. -/
theorem download_video_authenticates_on_bad_url :
    Stage.authS ∈ (download_video envNoPattern "https://x.com/a/b").1 ∧
      (download_video envNoPattern "https://x.com/a/b").2 =
        .error (.valueError "Could not parse tweet ID from URL: https://x.com/a/b") := by
  constructor
  · show Stage.authS ∈ [Stage.authS, Stage.parseS]
    exact List.mem_cons_self _ _
  · rfl

/-- C2 (amended): `download_video` authenticates first and parses second;
for every environment in which authentication succeeds and every URL the
tweet-id pattern does not match, it fails with the input error after
performing exactly the authentication and parsing stages, in that order,
with no resolution, extraction or download stage. -/
theorem download_video_auth_precedes_parse (env : Env) (url : String)
    (tk : String × String) (hauth : authenticate env = .ok tk)
    (hurl : findFirstId url.toList = none) :
    download_video env url =
      ([.authS, .parseS],
       .error (.valueError ("Could not parse tweet ID from URL: " ++ url))) := by
  unfold download_video
  rw [hauth]
  unfold extract_tweet_id
  rw [hurl]

/-- C2 witness: a concrete successful-authentication environment and a
concrete pattern-less URL on which the amended theorem applies. -/
theorem download_video_auth_precedes_parse_witness :
    authenticate envNoPattern = .ok ("AAAAAAAAAtok", "g") ∧
      download_video envNoPattern "u" =
        ([.authS, .parseS],
         .error (.valueError "Could not parse tweet ID from URL: u")) :=
  ⟨rfl, download_video_auth_precedes_parse envNoPattern "u" ("AAAAAAAAAtok", "g") rfl rfl⟩

/-! ## Lemmas about the variant extractor -/

lemma exceptBindOk {ε α β : Type} (a : α) (f : α → Except ε β) :
    (Except.ok a >>= f : Except ε β) = f a := rfl

lemma exceptMapOk {ε α β : Type} (a : α) (f : α → β) :
    (f <$> (Except.ok a : Except ε α) : Except ε β) = .ok (f a) := rfl

lemma exceptPureEq {ε α : Type} (a : α) :
    (pure a : Except ε α) = .ok a := rfl

lemma build_variant_filtered (e : JValue) (hct : hasContentType e = true)
    (hmp4 : isMp4Entry e = false) : build_variant e = .ok none := by
  cases e with
  | null => exact absurd hct (by simp [hasContentType])
  | num n => exact absurd hct (by simp [hasContentType])
  | str s => exact absurd hct (by simp [hasContentType])
  | arr l => exact absurd hct (by simp [hasContentType])
  | obj fields =>
    cases hl : fields.lookup "content_type" with
    | none => simp [hasContentType, hl] at hct
    | some ct =>
      simp only [isMp4Entry, hl] at hmp4
      simp [build_variant, jGet, exceptBindOk, exceptPureEq, hl, hmp4]

lemma build_variant_kept (e : JValue) (hmp4 : isMp4Entry e = true)
    (hurl : hasUrl e = true) : ∃ vv, build_variant e = .ok (some vv) := by
  cases e with
  | null => exact absurd hmp4 (by simp [isMp4Entry])
  | num n => exact absurd hmp4 (by simp [isMp4Entry])
  | str s => exact absurd hmp4 (by simp [isMp4Entry])
  | arr l => exact absurd hmp4 (by simp [isMp4Entry])
  | obj fields =>
    cases hl : fields.lookup "content_type" with
    | none => simp [isMp4Entry, hl] at hmp4
    | some ct =>
      simp only [isMp4Entry, hl] at hmp4
      cases hu : fields.lookup "url" with
      | none => simp [hasUrl, hu] at hurl
      | some u =>
        cases hb : fields.lookup "bitrate" with
        | none =>
          exact ⟨⟨.num 0, u, ct⟩, by simp [build_variant, jGet, jGetD, exceptBindOk, exceptMapOk, hl, hmp4, hu, hb]⟩
        | some b =>
          exact ⟨⟨b, u, ct⟩, by simp [build_variant, jGet, jGetD, exceptBindOk, exceptMapOk, hl, hmp4, hu, hb]⟩

lemma extract_items_count (entries : List JValue)
    (hct : ∀ e ∈ entries, hasContentType e = true)
    (hurl : ∀ e ∈ entries, isMp4Entry e = true → hasUrl e = true) :
    ∃ out, extract_items entries = .ok out ∧
      out.length = (entries.filter isMp4Entry).length := by
  induction entries with
  | nil => exact ⟨[], rfl, rfl⟩
  | cons e rest ih =>
    obtain ⟨out, hout, hlen⟩ :=
      ih (fun x hx => hct x (List.mem_cons_of_mem e hx))
        (fun x hx => hurl x (List.mem_cons_of_mem e hx))
    by_cases hmp4 : isMp4Entry e = true
    · obtain ⟨vv, hvv⟩ :=
        build_variant_kept e hmp4 (hurl e (List.mem_cons_self e rest) hmp4)
      refine ⟨vv :: out, ?_, ?_⟩
      · simp [extract_items, exceptBindOk, hvv, hout]
      · simp [List.filter_cons, hmp4, hlen]
    · have hmp4f : isMp4Entry e = false := Bool.of_not_eq_true hmp4
      have hbv := build_variant_filtered e (hct e (List.mem_cons_self e rest)) hmp4f
      refine ⟨out, ?_, ?_⟩
      · simp [extract_items, exceptBindOk, hbv, hout]
      · simp [List.filter_cons, hmp4f, hlen]

lemma extract_items_none (entries : List JValue)
    (hct : ∀ e ∈ entries, hasContentType e = true)
    (hnone : ∀ e ∈ entries, isMp4Entry e = false) :
    extract_items entries = .ok [] := by
  induction entries with
  | nil => rfl
  | cons e rest ih =>
    have hbv := build_variant_filtered e (hct e (List.mem_cons_self e rest))
      (hnone e (List.mem_cons_self e rest))
    have hrest := ih (fun x hx => hct x (List.mem_cons_of_mem e hx))
      (fun x hx => hnone x (List.mem_cons_of_mem e hx))
    simp [extract_items, exceptBindOk, hbv, hrest]

lemma extract_video_variants_eq (td : JValue) (entries : List JValue)
    (hres : resolve_variants td = .ok (.arr entries)) :
    extract_video_variants td =
      match extract_items entries with
      | .ok r => .ok r
      | .error .keyError =>
        .error (.valueError "Could not find video information in tweet data")
      | .error .indexError =>
        .error (.valueError "Could not find video information in tweet data")
      | .error e => .error e := by
  unfold extract_video_variants
  have h1 : (do extract_items (← jIter (← resolve_variants td))) =
      extract_items entries := by
    rw [hres]
    rfl
  rw [h1]

/-! ## Claim theorems: variant extraction -/

/-- The nested tweet-data shape down to the variants list. -/
def mkTweetData (variants : List JValue) : JValue :=
  .obj [("data", .obj [("tweetResult", .obj [("result", .obj [("legacy",
    .obj [("entities", .obj [("media", .arr [.obj [("video_info",
      .obj [("variants", .arr variants)])]])])])])])])]

/-- C4 (amended): if the nested path resolves to a variant list in which
every entry is a mapping declaring a media type and every filter-matching
entry declares a source URL, extraction succeeds and returns exactly as
many variants as entries match the `video/mp4` filter, regardless of the
other entries. -/
theorem extract_variants_count_matches_filter (td : JValue) (entries : List JValue)
    (hres : resolve_variants td = .ok (.arr entries))
    (hct : ∀ e ∈ entries, hasContentType e = true)
    (hurl : ∀ e ∈ entries, isMp4Entry e = true → hasUrl e = true) :
    ∃ out, extract_video_variants td = .ok out ∧
      out.length = (entries.filter isMp4Entry).length := by
  obtain ⟨out, hout, hlen⟩ := extract_items_count entries hct hurl
  refine ⟨out, ?_, hlen⟩
  rw [extract_video_variants_eq td entries hres, hout]

/-- The spec's round-trip example: two `video/mp4` entries and one
`application/x-mpegURL` entry. -/
def entriesRoundTrip : List JValue :=
  [.obj [("bitrate", .num 832000), ("url", .str "U1"), ("content_type", .str "video/mp4")],
   .obj [("bitrate", .num 0), ("url", .str "U2"), ("content_type", .str "video/mp4")],
   .obj [("bitrate", .num 1), ("url", .str "U3"), ("content_type", .str "application/x-mpegURL")]]

/-- C4 witness: on the round-trip example, extraction succeeds with exactly
two variants. -/
theorem extract_variants_count_matches_filter_witness :
    ∃ out, extract_video_variants (mkTweetData entriesRoundTrip) = .ok out ∧
      out.length = 2 :=
  extract_variants_count_matches_filter (mkTweetData entriesRoundTrip)
    entriesRoundTrip rfl (by decide) (by decide)

/-- A variant list whose first (non-matching) entry has no `content_type`
key and whose second entry matches the filter. -/
def entriesBadC4 : List JValue :=
  [.obj [("bitrate", .num 1)],
   .obj [("content_type", .str "video/mp4"), ("url", .str "U1")]]

/-- C4 counterexample: the path resolves and exactly one entry has media
type `video/mp4`, yet extraction does not return one variant: the
non-matching entry without a `content_type` key raises `KeyError`, which
becomes the extraction error.  The count is thus NOT independent of the
contents of the non-matching entries. -/
theorem extract_variants_errors_on_untyped_entry :
    resolve_variants (mkTweetData entriesBadC4) = .ok (.arr entriesBadC4) ∧
      (entriesBadC4.filter isMp4Entry).length = 1 ∧
      extract_video_variants (mkTweetData entriesBadC4) =
        .error (.valueError "Could not find video information in tweet data") :=
  ⟨rfl, rfl, rfl⟩

/-- C5 (amended): if the nested path resolves to a variant list in which
every entry is a mapping declaring a media type and no entry matches the
container filter, extraction returns the empty sequence without an error,
and the orchestrator then fails with the distinct no-media error. -/
theorem extract_variants_empty_yields_no_media (td : JValue) (entries : List JValue)
    (hres : resolve_variants td = .ok (.arr entries))
    (hct : ∀ e ∈ entries, hasContentType e = true)
    (hnone : ∀ e ∈ entries, isMp4Entry e = false) :
    extract_video_variants td = .ok [] ∧
      ∀ (env : Env) (url tid : String) (tk : String × String),
        authenticate env = .ok tk → extract_tweet_id url = .ok tid →
        env.tweetDetails tid = .ok td →
        download_video env url =
          ([.authS, .parseS, .fetchS, .extractS],
           .error (.valueError "No video found in tweet")) := by
  have hempty : extract_video_variants td = .ok [] := by
    rw [extract_video_variants_eq td entries hres, extract_items_none entries hct hnone]
  refine ⟨hempty, ?_⟩
  intro env url tid tk hauth hurl htd
  unfold download_video
  simp only [hauth, hurl, htd, hempty]
  rfl

/-- A variant list with one well-formed entry of a non-mp4 media type. -/
def entriesNoMp4 : List JValue :=
  [.obj [("content_type", .str "application/x-mpegURL"), ("url", .str "U3")]]

/-- The stubbed environment serving that description. -/
def envNoMp4 : Env :=
  { mainJs := .ok "AAAAAAAAAc"
    guest := .ok "g"
    tweetDetails := fun _ => .ok (mkTweetData entriesNoMp4)
    dl := .ok () }

/-- C5 witness: with only an `application/x-mpegURL` variant, extraction
returns the empty list and the orchestrator raises the no-media error, not
the extraction error. -/
theorem extract_variants_empty_yields_no_media_witness :
    extract_video_variants (mkTweetData entriesNoMp4) = .ok [] ∧
      download_video envNoMp4 "https://x.com/i/status/77" =
        ([.authS, .parseS, .fetchS, .extractS],
         .error (.valueError "No video found in tweet")) := by
  have h := extract_variants_empty_yields_no_media (mkTweetData entriesNoMp4)
    entriesNoMp4 rfl (by decide) (by decide)
  exact ⟨h.1, h.2 envNoMp4 "https://x.com/i/status/77" "77" ("AAAAAAAAAc", "g") rfl rfl rfl⟩

/-- A variant list whose single entry is an empty mapping. -/
def entriesBare : List JValue := [.obj []]

/-- The stubbed environment serving that description. -/
def envBare : Env :=
  { mainJs := .ok "AAAAAAAAAb"
    guest := .ok "g"
    tweetDetails := fun _ => .ok (mkTweetData entriesBare)
    dl := .ok () }

/-- C5 counterexample: the path resolves and zero entries match the filter,
yet extraction does not return an empty sequence: the bare entry raises
`KeyError`, so the orchestrator reports the extraction error, not the
no-media error. -/
theorem extract_variants_error_on_bare_entry :
    resolve_variants (mkTweetData entriesBare) = .ok (.arr entriesBare) ∧
      (∀ e ∈ entriesBare, isMp4Entry e = false) ∧
      extract_video_variants (mkTweetData entriesBare) =
        .error (.valueError "Could not find video information in tweet data") ∧
      download_video envBare "https://x.com/i/status/5" =
        ([.authS, .parseS, .fetchS, .extractS],
         .error (.valueError "Could not find video information in tweet data")) :=
  ⟨rfl, by decide, rfl, rfl⟩

/-! ## Claim theorems: stream-download cleanup -/

lemma fsUnlinkIfExists_self (fs : FS) (p : String) : fsUnlinkIfExists fs p p = none := by
  unfold fsUnlinkIfExists fsSet
  by_cases h : (fs p).isSome
  · rw [if_pos h]
    simp
  · rw [if_neg h]
    exact Option.not_isSome_iff_eq_none.mp h

lemma download_file_eq_of_getFail (r : StreamResponse) (p : String) (fs : FS)
    (hg : r.getOk = false) :
    download_file r p fs = (fsUnlinkIfExists fs p, [], .error .requestException) := by
  unfold download_file
  rw [hg]
  rfl

lemma download_file_eq_of_statusFail (r : StreamResponse) (p : String) (fs : FS)
    (hg : r.getOk = true) (hs : r.statusOk = false) :
    download_file r p fs = (fsUnlinkIfExists fs p, [], .error .requestException) := by
  unfold download_file
  rw [hg, hs]
  rfl

lemma download_file_eq_of_zero (r : StreamResponse) (p : String) (fs : FS)
    (hg : r.getOk = true) (hs : r.statusOk = true) (hlen : r.contentLength = 0) :
    download_file r p fs =
      if r.contentWriteFails then (fsSet fs p (some []), [], .error .osError)
      else (fsSet fs p (some r.content), [], .ok ()) := by
  unfold download_file
  rw [hg, hs, if_pos hlen]
  rfl

lemma download_file_eq_of_nonzero (r : StreamResponse) (p : String) (fs : FS)
    (hg : r.getOk = true) (hs : r.statusOk = true) (hlen : r.contentLength ≠ 0) :
    download_file r p fs =
      match (dlLoop r.contentLength r.events 0).2.2 with
      | .ok () =>
        (fsSet fs p (some (dlLoop r.contentLength r.events 0).1),
         (dlLoop r.contentLength r.events 0).2.1, .ok ())
      | .error .requestException =>
        (fsUnlinkIfExists (fsSet fs p (some (dlLoop r.contentLength r.events 0).1)) p,
         (dlLoop r.contentLength r.events 0).2.1, .error .requestException)
      | .error e =>
        (fsSet fs p (some (dlLoop r.contentLength r.events 0).1),
         (dlLoop r.contentLength r.events 0).2.1, .error e) := by
  unfold download_file
  rw [hg, hs, if_neg hlen]
  rfl

/-- C1 (amended): whenever `_download_file` fails with a transport error
(`requests.RequestException`) — before the transfer, at the status check,
or mid-stream — the destination file is absent afterwards.  (A local
file-write failure is NOT covered: see the counterexample.) -/
theorem download_file_deletes_on_transport_failure (r : StreamResponse) (p : String)
    (fs : FS) (h : (download_file r p fs).2.2 = .error .requestException) :
    (download_file r p fs).1 p = none := by
  cases hg : r.getOk with
  | false =>
    rw [download_file_eq_of_getFail r p fs hg]
    exact fsUnlinkIfExists_self fs p
  | true =>
    cases hs : r.statusOk with
    | false =>
      rw [download_file_eq_of_statusFail r p fs hg hs]
      exact fsUnlinkIfExists_self fs p
    | true =>
      by_cases hlen : r.contentLength = 0
      · rw [download_file_eq_of_zero r p fs hg hs hlen] at h
        exfalso
        cases hw : r.contentWriteFails with
        | true => rw [hw, if_pos rfl] at h; simp at h
        | false => rw [hw, if_neg (by simp)] at h; simp at h
      · rw [download_file_eq_of_nonzero r p fs hg hs hlen] at h ⊢
        cases hres : (dlLoop r.contentLength r.events 0).2.2 with
        | ok u =>
          cases u
          rw [hres] at h
          simp at h
        | error e =>
          rw [hres] at h
          cases e <;>
            first
              | exact fsUnlinkIfExists_self _ p
              | simp_all

/-- A stream whose single chunk is delivered but whose local write fails
with `OSError`. -/
def respWriteFail : StreamResponse :=
  ⟨true, true, 10, [], false, [.data [1] true]⟩

/-- C1 counterexample: on a local file-write failure during the streamed
write, `_download_file` propagates the error but the (empty, partial)
destination file is still present — the claim's `every cause of failure`
does not hold for `OSError`. -/
theorem download_file_keeps_partial_on_write_failure :
    (download_file respWriteFail "f.mp4" (fun _ => none)).2.2 = .error .osError ∧
      (download_file respWriteFail "f.mp4" (fun _ => none)).1 "f.mp4" = some [] :=
  ⟨rfl, rfl⟩

/-- A stream delivering one chunk and then failing mid-stream with a
transport error. -/
def respMidFail : StreamResponse :=
  ⟨true, true, 10, [], false, [.data [1] false, .transportFail]⟩

/-- C1 witness: on a concrete mid-stream transport failure, the run fails
with the transport error and the destination file is gone. -/
theorem download_file_deletes_on_transport_failure_witness :
    (download_file respMidFail "g.mp4" (fun _ => none)).2.2 = .error .requestException ∧
      (download_file respMidFail "g.mp4" (fun _ => none)).1 "g.mp4" = none :=
  ⟨rfl, download_file_deletes_on_transport_failure respMidFail "g.mp4" (fun _ => none) rfl⟩

/-! ## Claim theorems: progress characterization -/

lemma dlLoop_progress_spec (total : Nat) (chunks : List (List Nat))
    (hne : ∀ b ∈ chunks, b ≠ []) :
    ∀ d, (dlLoop total (chunks.map fun b => .data b false) d).2.1 =
        progressSpec total d (chunks.map List.length) ∧
      (dlLoop total (chunks.map fun b => .data b false) d).2.2 = .ok () := by
  induction chunks with
  | nil => exact fun d => ⟨rfl, rfl⟩
  | cons b rest ih =>
    intro d
    have hbne := hne b (List.mem_cons_self b rest)
    have hb : b.isEmpty = false := by
      cases b with
      | nil => exact absurd rfl hbne
      | cons x xs => rfl
    have ihd := ih (fun x hx => hne x (List.mem_cons_of_mem b hx)) (d + b.length)
    constructor
    · simp only [List.map_cons, dlLoop, hb, Bool.false_eq_true, if_false, progressSpec]
      rw [ihd.1]
      by_cases hp : (d + b.length) * 100 / total % 10 = 0
      · rw [if_pos hp, if_pos hp]
        rfl
      · rw [if_neg hp, if_neg hp]
        rfl
    · simp only [List.map_cons, dlLoop, hb, Bool.false_eq_true, if_false]
      exact ihd.2

lemma progressSpec_sound (total : Nat) :
    ∀ (ns : List Nat) (d v : Nat), v ∈ progressSpec total d ns →
      v % 10 = 0 ∧ ∃ c, c ≤ d + ns.sum ∧ v = c * 100 / total := by
  intro ns
  induction ns with
  | nil => intro d v hv; simp [progressSpec] at hv
  | cons n rest ih =>
    intro d v hv
    simp only [progressSpec] at hv
    by_cases hp : (d + n) * 100 / total % 10 = 0
    · rw [if_pos hp] at hv
      rcases List.mem_cons.mp hv with hveq | hvmem
      · subst hveq
        exact ⟨hp, d + n, by simp only [List.sum_cons]; omega, rfl⟩
      · obtain ⟨h1, c, hc, hveq⟩ := ih (d + n) v hvmem
        exact ⟨h1, c, by simp only [List.sum_cons] at hc ⊢; omega, hveq⟩
    · rw [if_neg hp] at hv
      obtain ⟨h1, c, hc, hveq⟩ := ih (d + n) v hv
      exact ⟨h1, c, by simp only [List.sum_cons] at hc ⊢; omega, hveq⟩

/-- C3 (amended): for a download with known nonzero declared length, split
into any sequence of nonempty chunks all delivered and written without
error, the progress log equals the spec formula — a notification after
exactly those chunks whose cumulative `floor(bytesSoFar / total * 100)` is
a multiple of 10 — every logged value is a multiple of 10, and when the
delivered bytes do not exceed the declared total every value is at most
100.  (The count of notifications is NOT bounded by 11: consecutive chunks
can log the same multiple of 10 repeatedly, see the counterexample.) -/
theorem download_file_progress_multiples_of_ten (r : StreamResponse) (p : String)
    (fs : FS) (chunks : List (List Nat))
    (hget : r.getOk = true) (hst : r.statusOk = true) (hlen : r.contentLength ≠ 0)
    (hev : r.events = chunks.map fun b => .data b false)
    (hne : ∀ b ∈ chunks, b ≠ []) :
    (download_file r p fs).2.1 = progressSpec r.contentLength 0 (chunks.map List.length) ∧
      (∀ v ∈ (download_file r p fs).2.1, v % 10 = 0) ∧
      ((chunks.map List.length).sum ≤ r.contentLength →
        ∀ v ∈ (download_file r p fs).2.1, v ≤ 100) := by
  obtain ⟨hpr, hok⟩ := by
    have h := dlLoop_progress_spec r.contentLength chunks hne 0
    rw [← hev] at h
    exact h
  have hshape := download_file_eq_of_nonzero r p fs hget hst hlen
  have hprog : (download_file r p fs).2.1 =
      progressSpec r.contentLength 0 (chunks.map List.length) := by
    rw [hshape, hok]
    exact hpr
  refine ⟨hprog, ?_, ?_⟩
  · intro v hv
    rw [hprog] at hv
    exact (progressSpec_sound r.contentLength (chunks.map List.length) 0 v hv).1
  · intro hsum v hv
    rw [hprog] at hv
    obtain ⟨-, c, hc, hveq⟩ :=
      progressSpec_sound r.contentLength (chunks.map List.length) 0 v hv
    subst hveq
    have hcle : c ≤ r.contentLength := le_trans hc (by simpa using hsum)
    have h1 : c * 100 ≤ 100 * r.contentLength := by
      calc c * 100 ≤ r.contentLength * 100 := Nat.mul_le_mul_right 100 hcle
      _ = 100 * r.contentLength := Nat.mul_comm _ _
    calc c * 100 / r.contentLength ≤ 100 * r.contentLength / r.contentLength :=
          Nat.div_le_div_right h1
      _ = 100 := Nat.mul_div_cancel 100 (Nat.pos_of_ne_zero hlen)

/-- A chunk of `n` zero bytes, delivered and written without error. -/
def mkChunk (n : Nat) : ChunkEvent := .data (List.replicate n 0) false

/-- A stream declaring 200 bytes, delivered as chunk sizes
20,1,19,1,19,1,19,1,19,1,19,1: each pair lands inside the same decade, so
each multiple of 10 is logged twice. -/
def respRepeatTen : StreamResponse :=
  ⟨true, true, 200, [], false,
   [mkChunk 20, mkChunk 1, mkChunk 19, mkChunk 1, mkChunk 19, mkChunk 1,
    mkChunk 19, mkChunk 1, mkChunk 19, mkChunk 1, mkChunk 19, mkChunk 1]⟩

/-- C3 counterexample: a download with declared length 200 whose progress
log has twelve entries — more than the claimed maximum of 11 notifications
— because the same percentage is logged again whenever another chunk stays
in the same decade. -/
theorem download_file_progress_exceeds_eleven :
    (download_file respRepeatTen "p.mp4" (fun _ => none)).2.1 =
      [10, 10, 20, 20, 30, 30, 40, 40, 50, 50, 60, 60] ∧
      11 < (download_file respRepeatTen "p.mp4" (fun _ => none)).2.1.length :=
  ⟨rfl, by decide⟩

/-- A stream declaring 5 bytes, delivered as a 2-byte and a 1-byte chunk. -/
def respTwoChunks : StreamResponse :=
  ⟨true, true, 5, [], false, [.data [0, 0] false, .data [0] false]⟩

/-- C3 witness: on a concrete two-chunk download the amended theorem
applies; the log is the spec formula's output and every entry is a
multiple of 10 bounded by 100. -/
theorem download_file_progress_multiples_of_ten_witness :
    (download_file respTwoChunks "w.mp4" (fun _ => none)).2.1 = progressSpec 5 0 [2, 1] ∧
      (∀ v ∈ (download_file respTwoChunks "w.mp4" (fun _ => none)).2.1, v % 10 = 0) ∧
      ([2, 1].sum ≤ 5 →
        ∀ v ∈ (download_file respTwoChunks "w.mp4" (fun _ => none)).2.1, v ≤ 100) :=
  download_file_progress_multiples_of_ten respTwoChunks "w.mp4" (fun _ => none)
    [[0, 0], [0]] rfl rfl (by decide) rfl (by decide)

/-! ## Claim theorems: the per-variant download loop -/

lemma dlLoop_ok_of_all (total : Nat) :
    ∀ (events : List ChunkEvent), events.all evOk = true → ∀ d,
      (dlLoop total events d).1 = (events.map evBytes).flatten ∧
      (dlLoop total events d).2.2 = .ok () := by
  intro events
  induction events with
  | nil => exact fun _ d => ⟨rfl, rfl⟩
  | cons ev rest ih =>
    intro h d
    rw [List.all_cons, Bool.and_eq_true] at h
    obtain ⟨he, hrest⟩ := h
    cases ev with
    | transportFail => simp [evOk] at he
    | data bytes wf =>
      by_cases hb : bytes.isEmpty = true
      · have hbe : bytes = [] := List.isEmpty_iff.mp hb
        subst hbe
        simp only [dlLoop, List.isEmpty_nil, if_true, List.map_cons, evBytes,
          List.flatten_cons, List.nil_append]
        exact ih hrest d
      · have hbf : bytes.isEmpty = false := Bool.of_not_eq_true hb
        have hwf : wf = false := by
          simp only [evOk, hbf, Bool.false_or] at he
          simpa using he
        subst hwf
        simp only [dlLoop, hbf, Bool.false_eq_true, if_false, List.map_cons, evBytes,
          List.flatten_cons]
        obtain ⟨ih1, ih2⟩ := ih hrest (d + bytes.length)
        exact ⟨by rw [ih1], ih2⟩

lemma dlLoop_fail_of_any (total : Nat) :
    ∀ (events : List ChunkEvent), events.all evOk = false → ∀ d,
      ∃ e, (dlLoop total events d).2.2 = .error e := by
  intro events
  induction events with
  | nil => intro h; simp at h
  | cons ev rest ih =>
    intro h d
    rw [List.all_cons, Bool.and_eq_false_iff] at h
    cases ev with
    | transportFail => exact ⟨.requestException, rfl⟩
    | data bytes wf =>
      by_cases hb : bytes.isEmpty = true
      · have hbe : bytes = [] := List.isEmpty_iff.mp hb
        subst hbe
        have hrest : rest.all evOk = false := by
          rcases h with h1 | h2
          · simp [evOk] at h1
          · exact h2
        simp only [dlLoop, List.isEmpty_nil, if_true]
        exact ih hrest d
      · have hbf : bytes.isEmpty = false := Bool.of_not_eq_true hb
        cases hwf : wf with
        | true =>
          refine ⟨.osError, ?_⟩
          simp [dlLoop, hbf]
        | false =>
          have hrest : rest.all evOk = false := by
            rcases h with h1 | h2
            · rw [evOk, hbf, hwf] at h1
              simp at h1
            · exact h2
          simp only [dlLoop, hbf, Bool.false_eq_true, if_false]
          exact ih hrest (d + bytes.length)

lemma download_file_ok_shape (r : StreamResponse) (p : String) (fs : FS)
    (h : streamOk r = true) :
    (download_file r p fs).1 = fsSet fs p (some (successContent r)) ∧
      (download_file r p fs).2.2 = .ok () := by
  unfold streamOk at h
  rw [Bool.and_eq_true, Bool.and_eq_true] at h
  obtain ⟨⟨hg, hs⟩, hrest⟩ := h
  by_cases hlen : r.contentLength = 0
  · rw [if_pos hlen] at hrest
    have hw : r.contentWriteFails = false := by simpa using hrest
    rw [download_file_eq_of_zero r p fs hg hs hlen, hw]
    constructor
    · simp [successContent, hlen]
    · simp
  · rw [if_neg hlen] at hrest
    obtain ⟨hw, hok⟩ := dlLoop_ok_of_all r.contentLength r.events hrest 0
    rw [download_file_eq_of_nonzero r p fs hg hs hlen, hok]
    constructor
    · rw [hw]
      simp [successContent, hlen]
    · rfl

lemma download_file_fail_shape (r : StreamResponse) (p : String) (fs : FS)
    (h : streamOk r = false) :
    ∃ e, (download_file r p fs).2.2 = .error e := by
  unfold streamOk at h
  cases hg : r.getOk with
  | false =>
    exact ⟨.requestException, by rw [download_file_eq_of_getFail r p fs hg]⟩
  | true =>
    cases hs : r.statusOk with
    | false =>
      exact ⟨.requestException, by rw [download_file_eq_of_statusFail r p fs hg hs]⟩
    | true =>
      rw [hg, hs] at h
      simp only [Bool.true_and] at h
      by_cases hlen : r.contentLength = 0
      · rw [if_pos hlen] at h
        have hw : r.contentWriteFails = true := by simpa using h
        refine ⟨.osError, ?_⟩
        rw [download_file_eq_of_zero r p fs hg hs hlen, hw]
        rfl
      · rw [if_neg hlen] at h
        obtain ⟨e, he⟩ := dlLoop_fail_of_any r.contentLength r.events h 0
        rw [download_file_eq_of_nonzero r p fs hg hs hlen, he]
        cases e <;> exact ⟨_, rfl⟩

lemma download_file_frame (r : StreamResponse) (p : String) (fs : FS) (q : String)
    (hq : q ≠ p) : (download_file r p fs).1 q = fs q := by
  have h1 : ∀ (g : FS) v, fsSet g p v q = g q := fun g v => by simp [fsSet, hq]
  have h2 : ∀ (g : FS), fsUnlinkIfExists g p q = g q := by
    intro g
    unfold fsUnlinkIfExists
    split
    · exact h1 g none
    · rfl
  cases hg : r.getOk with
  | false => rw [download_file_eq_of_getFail r p fs hg]; exact h2 fs
  | true =>
    cases hs : r.statusOk with
    | false => rw [download_file_eq_of_statusFail r p fs hg hs]; exact h2 fs
    | true =>
      by_cases hlen : r.contentLength = 0
      · rw [download_file_eq_of_zero r p fs hg hs hlen]
        cases hw : r.contentWriteFails with
        | true => exact h1 fs (some [])
        | false => exact h1 fs (some r.content)
      · rw [download_file_eq_of_nonzero r p fs hg hs hlen]
        cases hres : (dlLoop r.contentLength r.events 0).2.2 with
        | ok u => cases u; exact h1 fs _
        | error e =>
          cases e <;>
            first
              | exact (h2 _).trans (h1 fs _)
              | exact h1 fs _

lemma download_video_variants_cons (responses : Nat → StreamResponse) (tid : String)
    (v : VideoVariant) (rest : List VideoVariant) (k : Nat) (fs : FS) :
    download_video_variants responses tid (v :: rest) k fs =
      match (download_file (responses k) (variant_filename tid v) fs).2.2 with
      | .ok () => download_video_variants responses tid rest (k + 1)
          (download_file (responses k) (variant_filename tid v) fs).1
      | .error e => ((download_file (responses k) (variant_filename tid v) fs).1, .error e) :=
  rfl

lemma download_variants_run (responses : Nat → StreamResponse) (tid : String) :
    ∀ (variants : List VideoVariant) (k : Nat) (fs : FS) (i : Nat),
      i < variants.length →
      (∀ j, j < i → streamOk (responses (k + j)) = true) →
      streamOk (responses (k + i)) = false →
      (download_video_variants responses tid variants k fs).2 ≠ .ok () ∧
        (∀ q, q ∉ (variants.take (i + 1)).map (variant_filename tid) →
          (download_video_variants responses tid variants k fs).1 q = fs q) ∧
        (((variants.take (i + 1)).map (variant_filename tid)).Nodup →
          ∀ j v, j < i → variants[j]? = some v →
            (download_video_variants responses tid variants k fs).1 (variant_filename tid v) =
              some (successContent (responses (k + j)))) := by
  intro variants
  induction variants with
  | nil => intro k fs i hi; simp at hi
  | cons v rest ih =>
    intro k fs i hi hsucc hfail
    cases i with
    | zero =>
      have hfail0 : streamOk (responses k) = false := by simpa using hfail
      obtain ⟨e, he⟩ := download_file_fail_shape (responses k) (variant_filename tid v) fs hfail0
      have hstep : download_video_variants responses tid (v :: rest) k fs =
          ((download_file (responses k) (variant_filename tid v) fs).1, .error e) := by
        rw [download_video_variants_cons, he]
      refine ⟨?_, ?_, ?_⟩
      · rw [hstep]; simp
      · intro q hq
        rw [hstep]
        have hq1 : q ≠ variant_filename tid v := by
          intro hc
          exact hq (by simp [List.take_succ_cons, hc])
        exact download_file_frame (responses k) (variant_filename tid v) fs q hq1
      · intro _ j v' hj hv'
        exact absurd hj (Nat.not_lt_zero j)
    | succ i' =>
      have hs0 : streamOk (responses k) = true := by
        simpa using hsucc 0 (Nat.succ_pos i')
      obtain ⟨hfs1, hok1⟩ :=
        download_file_ok_shape (responses k) (variant_filename tid v) fs hs0
      have hstep : download_video_variants responses tid (v :: rest) k fs =
          download_video_variants responses tid rest (k + 1)
            ((download_file (responses k) (variant_filename tid v) fs).1) := by
        rw [download_video_variants_cons, hok1]
      have hi' : i' < rest.length := by
        simpa using hi
      have hsucc' : ∀ j, j < i' → streamOk (responses (k + 1 + j)) = true := by
        intro j hj
        have := hsucc (j + 1) (Nat.succ_lt_succ hj)
        have harith : k + (j + 1) = k + 1 + j := by omega
        rwa [harith] at this
      have hfail' : streamOk (responses (k + 1 + i')) = false := by
        have harith : k + (i' + 1) = k + 1 + i' := by omega
        rwa [harith] at hfail
      obtain ⟨ih1, ih2, ih3⟩ :=
        ih (k + 1) ((download_file (responses k) (variant_filename tid v) fs).1) i'
          hi' hsucc' hfail'
      refine ⟨by rw [hstep]; exact ih1, ?_, ?_⟩
      · intro q hq
        rw [List.take_succ_cons, List.map_cons, List.mem_cons] at hq
        push_neg at hq
        rw [hstep, ih2 q hq.2, hfs1]
        simp [fsSet, hq.1]
      · intro hnodup j v' hj hv'
        rw [List.take_succ_cons, List.map_cons, List.nodup_cons] at hnodup
        cases j with
        | zero =>
          have hv : v' = v := by simpa using hv'.symm
          subst hv
          rw [hstep, ih2 (variant_filename tid v') hnodup.1, hfs1]
          simp [fsSet]
        | succ j' =>
          have hj' : j' < i' := Nat.lt_of_succ_lt_succ hj
          have hv'' : rest[j']? = some v' := by simpa using hv'
          have hres := ih3 hnodup.2 j' v' hj' hv''
          have harith : k + 1 + j' = k + (j' + 1) := by omega
          rw [hstep]
          rwa [harith] at hres

/-- C10 (amended): when the sequential per-variant loop downloads variants
whose destination names up to the failing index are pairwise distinct, and
variant `i` is the first whose stream fails, the loop aborts with an error,
every path outside the attempted destinations keeps its prior contents, and
every earlier variant's completed file is still present with exactly the
bytes its stream delivered.  (Distinct names are necessary: with equal
bitrates the failing variant's own cleanup destroys the earlier completed
file, see the counterexample.) -/
theorem download_variants_preserves_completed (responses : Nat → StreamResponse)
    (tid : String) (variants : List VideoVariant) (fs : FS) (i : Nat)
    (hi : i < variants.length)
    (hsucc : ∀ j, j < i → streamOk (responses j) = true)
    (hfail : streamOk (responses i) = false)
    (hnodup : ((variants.take (i + 1)).map (variant_filename tid)).Nodup) :
    (download_video_variants responses tid variants 0 fs).2 ≠ .ok () ∧
      (∀ q, q ∉ (variants.take (i + 1)).map (variant_filename tid) →
        (download_video_variants responses tid variants 0 fs).1 q = fs q) ∧
      ∀ j v, j < i → variants[j]? = some v →
        (download_video_variants responses tid variants 0 fs).1 (variant_filename tid v) =
          some (successContent (responses j)) := by
  obtain ⟨h1, h2, h3⟩ := download_variants_run responses tid variants 0 fs i hi
    (fun j hj => by simpa using hsucc j hj) (by simpa using hfail)
  exact ⟨h1, h2, fun j v hj hv => by simpa using h3 hnodup j v hj hv⟩

/-- Two variants with the same bitrate 5 (colliding destination names) and
one with bitrate 3. -/
def vvA : VideoVariant := ⟨.num 5, .str "u1", .str "video/mp4"⟩

/-- The second variant with the same bitrate as `vvA`. -/
def vvB : VideoVariant := ⟨.num 5, .str "u2", .str "video/mp4"⟩

/-- A variant with a distinct bitrate. -/
def vvC : VideoVariant := ⟨.num 3, .str "u3", .str "video/mp4"⟩

/-- Streamed responses for the loop: the first download succeeds with one
byte `7`; every later download fails mid-stream with a transport error. -/
def respsC10 : Nat → StreamResponse := fun k =>
  if k = 0 then ⟨true, true, 1, [], false, [.data [7] false]⟩
  else ⟨true, true, 1, [], false, [.transportFail]⟩

/-- C10 counterexample: with two variants sharing bitrate 5 (hence one
destination name), variant 0 completes and its file holds `[7]` — but when
variant 1 fails, its cleanup deletes that same path, so the completed file
of variant 0 does NOT remain. -/
theorem download_variants_collision_destroys_earlier :
    (download_video_variants respsC10 "1" [vvA, vvB] 0 (fun _ => none)).2 =
        .error .requestException ∧
      (download_video_variants respsC10 "1" [vvA] 0 (fun _ => none)).1 "tweet_1_5.mp4" =
        some [7] ∧
      (download_video_variants respsC10 "1" [vvA, vvB] 0 (fun _ => none)).1 "tweet_1_5.mp4" =
        none :=
  ⟨rfl, rfl, rfl⟩

/-- C10 witness: with distinct bitrates 5 and 3, variant 1's failure aborts
the loop and variant 0's completed file is still present with its bytes. -/
theorem download_variants_preserves_completed_witness :
    (download_video_variants respsC10 "1" [vvA, vvC] 0 (fun _ => none)).2 ≠ .ok () ∧
      (download_video_variants respsC10 "1" [vvA, vvC] 0 (fun _ => none)).1 "tweet_1_5.mp4" =
        some [7] := by
  have h := download_variants_preserves_completed respsC10 "1" [vvA, vvC] (fun _ => none) 1
    (by decide)
    (fun j hj => by
      have hj0 : j = 0 := by omega
      subst hj0
      decide)
    (by decide)
    (by decide)
  exact ⟨h.1, h.2.2 0 vvA (by decide) rfl⟩

end TwitterDl
